import Mathlib

/-!
Shallow embedding of the WhisperLive browser client
(`Audio-Transcription-Chrome/options.js`, the injected content script, and the
popup script).  JavaScript numbers are embedded as exact rationals, JS strings
as `String` (protocol side) or `List Char` (renderer side, one entry per code
unit), and fallible JSON parsing as `Option`.
-/

namespace WhisperLive

/-- Output length of the resampler:
`Math.round(data.length * (16000 / origSampleRate))` from
`resampleTo16kHZ`, clamped to `ℕ` (it is used as a `Float32Array` length). -/
def targetLen (len : ℕ) (origSampleRate : ℚ) : ℕ :=
  (round ((len : ℚ) * (16000 / origSampleRate))).toNat

/-- `resampleTo16kHZ(audioData, origSampleRate)` from `options.js`.
The imperative writes are rendered by the final value of each index: the write
`resampledData[targetLength - 1] = data[data.length - 1]` is executed after
`resampledData[0] = data[0]`, so when `targetLength = 1` the last-sample write
wins at index 0; out-of-range typed-array writes are no-ops; the
interpolation loop runs for `1 <= i < targetLength - 1` only, never touching
indices `0` and `targetLength - 1`. -/
def resampleTo16kHZ (audioData : List ℚ) (origSampleRate : ℚ) : List ℚ :=
  let data := audioData
  let targetLength := targetLen data.length origSampleRate
  let springFactor : ℚ := ((data.length : ℚ) - 1) / ((targetLength : ℚ) - 1)
  (List.range targetLength).map fun i =>
    if i = targetLength - 1 then data.getLastD 0
    else if i = 0 then data.headD 0
    else
      let index := (i : ℚ) * springFactor
      let fraction := index - ⌊index⌋
      data.getD ⌊index⌋.toNat 0 +
        (data.getD ⌈index⌉.toNat 0 - data.getD ⌊index⌋.toNat 0) * fraction

/-! ## Streaming session (`startRecord` in `options.js`) -/

/-- One transcript segment of a server message (`segments: [{text, ...}]`).
Only the `text` field is read by the client. -/
structure Segment where
  text : Option String
deriving DecidableEq

/-- A successfully parsed inbound server message; every field the client reads
is optional, `none` standing for a missing (`undefined`) JSON field. -/
structure MsgData where
  uid : Option String
  status : Option String
  message : Option String
  backend : Option String
  language : Option String
  language_prob : Option ℚ
  segments : Option (List Segment)
deriving DecidableEq

/-- The message with every field missing (the JSON object `{}`). -/
def MsgData.empty : MsgData := ⟨none, none, none, none, none, none, none⟩

/-- JS truthiness of an optional string field: `undefined`, `null` and the
empty string are falsy, every other string is truthy. -/
def truthyStr : Option String → Bool
  | none => false
  | some s => s != ""

/-- The mutable local state of `startRecord` that the socket and audio
handlers share: the `isServerReady` flag and the `language` variable
(initialized to `options.language`, `none` meaning `null`/auto-detect). -/
structure SessionState where
  isServerReady : Bool
  language : Option String
deriving DecidableEq

/-- Externally observable effects of one handler invocation. -/
inductive Output where
  | busyEvent (message : Option String)
  | toggleCaptureOff
  | stopCapture
  | updateSelectedLanguage (lang : String)
  | transcriptToTab (segments : List Segment)
  | sendFrame (frame : List ℚ)
deriving DecidableEq

/-- `socket.onmessage` from `options.js`.  The argument `none` stands for a
frame whose `JSON.parse` throws: the exception is caught and the handler
leaves the state unchanged.  The branches appear in source order: uid guard,
`WAIT` status, first `SERVER_READY`, language detection, `DISCONNECT`, and
transcript segments (a present `segments` array is truthy even when empty). -/
def processMessage (uuid : String) (s : SessionState) (m : Option MsgData) :
    SessionState × List Output :=
  match m with
  | none => (s, [])
  | some data =>
    if data.uid ≠ some uuid then (s, [])
    else if data.status = some "WAIT" then
      (s, [.busyEvent data.message, .toggleCaptureOff, .stopCapture])
    else if s.isServerReady = false ∧ data.message = some "SERVER_READY" then
      ({ s with isServerReady := true }, [])
    else if s.language = none ∧ truthyStr data.language then
      ({ s with language := data.language },
        [.updateSelectedLanguage (data.language.getD "")])
    else if data.message = some "DISCONNECT" then
      (s, [.toggleCaptureOff])
    else
      match data.segments with
      | some segs => (s, [.transcriptToTab segs])
      | none => (s, [])

/-- The silence check of `processor.onaudioprocess`:
`inputData.some(sample => Math.abs(sample) > 0.01)`. -/
def hasAudio (block : List ℚ) : Bool :=
  block.any fun x => decide (1 / 100 < |x|)

/-- `processor.onaudioprocess` from `options.js`: blocks arriving before
readiness are dropped, silent blocks are dropped, otherwise the resampled
block is sent iff the socket is open.  (`audioContext` is non-null for the
lifetime of the handler, so the `!audioContext` disjunct is omitted.) -/
def processAudio (s : SessionState) (socketOpen : Bool) (sampleRate : ℚ)
    (block : List ℚ) : SessionState × List Output :=
  if s.isServerReady = false then (s, [])
  else if hasAudio block then
    if socketOpen then (s, [.sendFrame (resampleTo16kHZ block sampleRate)])
    else (s, [])
  else (s, [])

/-- An event delivered to the session by the single-threaded event loop:
an inbound socket message or an audio-capture callback. -/
inductive Event where
  | msg (m : Option MsgData)
  | audio (socketOpen : Bool) (sampleRate : ℚ) (block : List ℚ)
deriving DecidableEq

/-- Dispatch of one event to the matching handler. -/
def step (uuid : String) (s : SessionState) : Event → SessionState × List Output
  | .msg m => processMessage uuid s m
  | .audio so rate block => processAudio s so rate block

/-- Run the session over a list of events, concatenating the emitted
outputs in order. -/
def run (uuid : String) (s : SessionState) :
    List Event → SessionState × List Output
  | [] => (s, [])
  | e :: es =>
    let r := step uuid s e
    let r2 := run uuid r.1 es
    (r2.1, r.2 ++ r2.2)

/-- Whether an output is an outbound binary audio frame. -/
def isFrame : Output → Bool
  | .sendFrame _ => true
  | _ => false

/-- Whether an output forwards transcript segments to the content script. -/
def isTranscript : Output → Bool
  | .transcriptToTab _ => true
  | _ => false

/-- Whether an event is a message that reaches the `SERVER_READY` branch:
matching uid, status not `WAIT`, message literal `SERVER_READY`. -/
def triggersReady (uuid : String) : Event → Bool
  | .msg (some d) =>
    decide (d.uid = some uuid) && decide (d.status ≠ some "WAIT") &&
      decide (d.message = some "SERVER_READY")
  | _ => false

/-! ## Transcript renderer (content script)

JS strings are modelled as `List Char`, one entry per code unit. -/

/-- `text.split(sep)` of JavaScript: splitting the empty string yields one
empty piece, and every separator occurrence starts a new piece. -/
def jsSplit (sep : Char) : List Char → List (List Char)
  | [] => [[]]
  | c :: rest =>
    let r := jsSplit sep rest
    if c = sep then [] :: r
    else (c :: r.headD []) :: r.tail

/-- Joining pieces with a single space between consecutive pieces
(the inverse of `jsSplit ' '`). -/
def joinSp : List (List Char) → List Char
  | [] => []
  | [w] => w
  | w :: ws => w ++ ' ' :: joinSp ws

/-- The accumulation `segment += words[i] + ' '` of `getLines`: each word
followed by one space. -/
def joinTS (ws : List (List Char)) : List Char :=
  (ws.map fun w => w ++ [' ']).flatten

/-- `s.substring(a, b)` of JavaScript on a code-unit list: indices are clamped
to the string and swapped when out of order.  (The only negative index
arising in `getLines` is `-1`, which JS clamps to `0`; the embedding's
truncated `ℕ` subtraction produces `0` at exactly those call sites.) -/
def jsSubstring (s : List Char) (a b : ℕ) : List Char :=
  (s.take (max a b)).drop (min a b)

/-- The loop state of `getLines`: the accumulated `segment` string, the
consumed prefix length `segmentLen`, the line counter `currentLines`, and the
emitted `segments`. -/
structure GLState where
  segment : List Char
  segmentLen : ℕ
  currentLines : ℕ
  segments : List (List Char)
deriving DecidableEq

/-- One iteration of the `getLines` word loop.  `offsetHeight` is the DOM
measurement oracle (the rendered height of the element after
`element.innerHTML = segment`), `lineHeight` the fixed line height; the break
condition is `element.offsetHeight / lineHeight > currentLines`. -/
def glStep (offsetHeight : List Char → ℚ) (lineHeight : ℚ) (st : GLState)
    (word : List Char) : GLState :=
  let segment := st.segment ++ word ++ [' ']
  if offsetHeight segment / lineHeight > (st.currentLines : ℚ) then
    let lineSegment :=
      jsSubstring segment st.segmentLen (segment.length - 1 - word.length - 1)
    ⟨segment, st.segmentLen + lineSegment.length + 1, st.currentLines + 1,
      st.segments ++ [lineSegment]⟩
  else
    { st with segment := segment }

/-- `getLines(element, lineHeight)` from the content script, with the DOM
measurement passed as the oracle `offsetHeight`: splits the element's text on
spaces, re-appends the words one at a time watching the measured height, and
returns the recorded line segments plus the final remainder
`segment.substring(segmentLen, segment.length - 1)`. -/
def getLines (offsetHeight : List Char → ℚ) (lineHeight : ℚ)
    (text : List Char) : List (List Char) :=
  let final := (jsSplit ' ' text).foldl (glStep offsetHeight lineHeight)
    ⟨[], 0, 1, []⟩
  final.segments ++
    [jsSubstring final.segment final.segmentLen (final.segment.length - 1)]

/-- The text cleanup of `updateTranscription`:
`text.replace(/(\r\n|\n|\r)/gm, " ")` — each line break (a `\r\n` pair
counting as one) becomes a single space. -/
def cleanText : List Char → List Char
  | [] => []
  | '\r' :: '\n' :: rest => ' ' :: cleanText rest
  | '\r' :: rest => ' ' :: cleanText rest
  | '\n' :: rest => ' ' :: cleanText rest
  | c :: rest => c :: cleanText rest

/-- `updateTranscription(text)` from the content script: clean the text,
recompute the full line segmentation with `getLines`, and display the last
three lines (`textSegments.slice(Math.max(0, textSegments.length - 3))`).
Returns (full `textSegments`, displayed lines). -/
def updateTranscription (offsetHeight : List Char → ℚ) (lineHeight : ℚ)
    (text : List Char) : List (List Char) × List (List Char) :=
  let segs := getLines offsetHeight lineHeight (cleanText text)
  (segs, segs.drop (segs.length - 3))

/-- JS `text.trim()` on a code-unit list (whitespace stripped at both ends). -/
def jsTrim (s : List Char) : List Char :=
  (((s.dropWhile Char.isWhitespace).reverse).dropWhile Char.isWhitespace).reverse

/-- The text accumulator of the `"transcript"` message case:
`for (const segment of segments) if (segment.text) text += segment.text + ' '`.
Only the current message's segments contribute. -/
def buildText (segs : List Segment) : List Char :=
  segs.foldl (fun t seg =>
    match seg.text with
    | some txt => if txt = "" then t else t ++ txt.data ++ [' ']
    | none => t) []

/-- The renderer state persisted across `"transcript"` messages: the
`textSegments` array of the last recompute and the contents of the three
visible text elements. -/
structure RendererState where
  textSegments : List (List Char)
  display : List (List Char)
deriving DecidableEq

/-- The `"transcript"` case of the content script's message listener: read
`message.segments`, build the text from this batch alone, and when the
trimmed text is nonempty run `updateTranscription` on it; otherwise leave
everything unchanged. -/
def handleTranscript (offsetHeight : List Char → ℚ) (lineHeight : ℚ)
    (st : RendererState) (msg : MsgData) : RendererState :=
  match msg.segments with
  | none => st
  | some segs =>
    if segs.length > 0 then
      let text := buildText segs
      if jsTrim text ≠ [] then
        let r := updateTranscription offsetHeight lineHeight text
        ⟨r.1, r.2⟩
      else st
    else st

/-- The loop invariant of `getLines`: the emitted segments are the word
groups `G` (each nonempty, joined by single spaces), the accumulated segment
is all processed words each followed by a space, and `segmentLen` marks the
boundary of the consumed groups; `P` is the pending (processed but not yet
emitted) word group, always nonempty. -/
structure GLInv (st : GLState) (G : List (List (List Char)))
    (P : List (List Char)) : Prop where
  gne : ∀ g ∈ G, g ≠ []
  pne : P ≠ []
  segs : st.segments = G.map joinSp
  seg : st.segment = joinTS (G.flatten ++ P)
  slen : st.segmentLen = (joinTS G.flatten).length

theorem targetLen_nil (rs : ℚ) : targetLen 0 rs = 0 := by
  simp [targetLen]

/-- Claim C9: the resampler has no error conditions: a zero-length input
yields a zero-length output (no division by zero is hit on that path, since
`(0-1)/(0-1) = 1`), and for every input the output is a well-defined array of
exactly `round(len * 16000 / Rs)` samples — in particular the guarded cases
`len_out <= 1` produce an array of that length with no out-of-range access. -/
theorem claim_C9_theorem (rs : ℚ) (d : List ℚ) :
    resampleTo16kHZ [] rs = [] ∧
    (resampleTo16kHZ d rs).length = targetLen d.length rs := by
  constructor
  · simp [resampleTo16kHZ, targetLen]
  · simp [resampleTo16kHZ]

/-- Claim C8 fails as stated: for input `[1, 0]` at source rate 44100 the
output length is `round(2 * 16000 / 44100) = 1`, and the single output sample
is the *last* input sample (the write `out[targetLength-1] = in[last]`
overwrites the earlier write `out[0] = in[0]`), so the first output sample is
`0`, not the first input sample `1`. -/
theorem claim_C8_counterexample :
    (resampleTo16kHZ [1, 0] 44100).headD 0 ≠ ([1, 0] : List ℚ).headD 0 := by
  have h : targetLen 2 44100 = 1 := by norm_num [targetLen, round_eq]
  have he : resampleTo16kHZ [1, 0] 44100 = [0] := by
    simp [resampleTo16kHZ, h, List.range_succ]
  rw [he]
  norm_num

/-- Claim C8, amended: whenever the output has at least two samples, the first
output sample equals the first input sample; whenever the output is nonempty,
the last output sample equals the last input sample.  (For an output of
exactly one sample, that sample is the last input sample, not the first.) -/
theorem claim_C8_theorem (d : List ℚ) (rs : ℚ) :
    (2 ≤ targetLen d.length rs →
      (resampleTo16kHZ d rs).headD 0 = d.headD 0) ∧
    (1 ≤ targetLen d.length rs →
      (resampleTo16kHZ d rs).getLastD 0 = d.getLastD 0) := by
  constructor
  · intro h2
    obtain ⟨n, hn⟩ : ∃ n, targetLen d.length rs = n + 1 :=
      ⟨targetLen d.length rs - 1, by omega⟩
    simp only [resampleTo16kHZ, hn, List.range_succ_eq_map, List.map_cons,
      List.headD_cons, Nat.add_sub_cancel]
    rw [if_neg (show (0 : ℕ) ≠ n by omega)]
    simp
  · intro h1
    obtain ⟨n, hn⟩ : ∃ n, targetLen d.length rs = n + 1 :=
      ⟨targetLen d.length rs - 1, by omega⟩
    simp only [resampleTo16kHZ, hn, List.range_succ, List.map_append,
      List.map_cons, List.map_nil, List.getLastD_concat, Nat.add_sub_cancel]
    simp

/-- Witness for the amended claim C8 at the concrete input `[1, 2, 3, 4]`
resampled from 16000 Hz (output length 4). -/
theorem claim_C8_witness :
    2 ≤ targetLen ([1, 2, 3, 4] : List ℚ).length 16000 ∧
    (resampleTo16kHZ [1, 2, 3, 4] 16000).headD 0 = (1 : ℚ) ∧
    (resampleTo16kHZ [1, 2, 3, 4] 16000).getLastD 0 = (4 : ℚ) := by
  have h4 : targetLen ([1, 2, 3, 4] : List ℚ).length 16000 = 4 := by
    norm_num [targetLen, round_eq]
    rfl
  have h := claim_C8_theorem [1, 2, 3, 4] 16000
  refine ⟨by omega, ?_, ?_⟩
  · rw [h.1 (by omega)]
    norm_num
  · rw [h.2 (by omega)]
    norm_num

theorem processMessage_not_ready (uuid : String) (s : SessionState)
    (m : Option MsgData) (hs : s.isServerReady = false)
    (ht : triggersReady uuid (.msg m) = false) :
    (processMessage uuid s m).1.isServerReady = false ∧
      (processMessage uuid s m).2.all (fun o => !isFrame o) = true := by
  cases m with
  | none => simp [processMessage, hs]
  | some d =>
    simp only [triggersReady, Bool.and_eq_false_iff, decide_eq_false_iff_not,
      not_not] at ht
    simp only [processMessage]
    split_ifs with h1 h2 h3 h4 h5
    · simpa using hs
    · simpa [isFrame] using hs
    · rcases ht with (h | h) | h
      · exact absurd h h1
      · exact absurd h h2
      · exact absurd h3.2 h
    · simpa [isFrame] using hs
    · simpa [isFrame] using hs
    · cases hg : d.segments <;> simp [hg, isFrame, hs]

theorem processAudio_not_ready (s : SessionState) (so : Bool) (rate : ℚ)
    (block : List ℚ) (hs : s.isServerReady = false) :
    processAudio s so rate block = (s, []) := by
  simp [processAudio, hs]

theorem run_not_ready (uuid : String) (events : List Event) :
    ∀ s : SessionState, s.isServerReady = false →
    (∀ e ∈ events, triggersReady uuid e = false) →
    (run uuid s events).1.isServerReady = false ∧
      (run uuid s events).2.all (fun o => !isFrame o) = true := by
  induction events with
  | nil => intro s hs _; simp [run, hs]
  | cons e es ih =>
    intro s hs hall
    have hstep : (step uuid s e).1.isServerReady = false ∧
        (step uuid s e).2.all (fun o => !isFrame o) = true := by
      cases e with
      | msg m => exact processMessage_not_ready uuid s m hs (hall _ (by simp))
      | audio so rate block =>
        simp [step, processAudio_not_ready s so rate block hs, hs]
    have hrest := ih (step uuid s e).1 hstep.1
      (fun x hx => hall x (by simp [hx]))
    simp only [run, List.all_append]
    exact ⟨hrest.1, by simp [hstep.2, hrest.2]⟩

/-- Claim C1: as long as no message triggering the `SERVER_READY` branch has
been processed, no outbound binary frame is ever transmitted over any event
sequence, and each audio block delivered in that period is a complete no-op:
the state is unchanged (nothing is queued) and nothing is emitted. -/
theorem claim_C1_theorem (uuid : String) (s : SessionState)
    (events : List Event) (hs : s.isServerReady = false)
    (hall : ∀ e ∈ events, triggersReady uuid e = false) :
    (run uuid s events).2.all (fun o => !isFrame o) = true ∧
    ∀ (so : Bool) (rate : ℚ) (block : List ℚ),
      processAudio s so rate block = (s, []) := by
  exact ⟨(run_not_ready uuid events s hs hall).2,
    fun so rate block => processAudio_not_ready s so rate block hs⟩

/-- Witness for claim C1: a loud audio block delivered before any
`SERVER_READY` produces no frame and leaves the session unchanged. -/
theorem claim_C1_witness :
    (run "u" ⟨false, none⟩ [.audio true 44100 [1]]).2.all
        (fun o => !isFrame o) = true ∧
    processAudio ⟨false, none⟩ true 44100 [1] = (⟨false, none⟩, []) := by
  have h := claim_C1_theorem "u" ⟨false, none⟩ [.audio true 44100 [1]] rfl
    (by intro e he; simp only [List.mem_singleton] at he; subst he; rfl)
  exact ⟨h.1, h.2 true 44100 [1]⟩

/-- Claim C2 fails as stated: in the ready state, a delivered silent block
(here a single zero sample, with the socket open) yields zero outbound frames,
not exactly one — the handler's silence check
`inputData.some(sample => Math.abs(sample) > 0.01)` drops it. -/
theorem claim_C2_counterexample :
    (processAudio ⟨true, none⟩ true 44100 [0]).2 = [] := by
  have ha : hasAudio [0] = false := by
    simp [hasAudio]
  simp [processAudio, ha]

/-- Claim C2, amended: after `SERVER_READY` has been processed, an audio block
yields exactly one outbound binary frame containing the resampled block iff
the block contains at least one sample of magnitude greater than 0.01 and the
socket is open; otherwise (silence, or a non-open socket) it yields none. -/
theorem claim_C2_theorem (s : SessionState) (so : Bool) (rate : ℚ)
    (block : List ℚ) (hs : s.isServerReady = true) :
    processAudio s so rate block =
      if hasAudio block && so then
        (s, [.sendFrame (resampleTo16kHZ block rate)])
      else (s, []) := by
  simp only [processAudio, hs]
  cases h : hasAudio block <;> cases so <;> simp [h]

/-- Witness for the amended claim C2: one loud block after readiness yields
exactly one frame, namely the resampled block. -/
theorem claim_C2_witness :
    (processAudio ⟨true, none⟩ true 16000 [1]).2 =
      [Output.sendFrame [1]] := by
  have h := claim_C2_theorem ⟨true, none⟩ true 16000 [1] rfl
  have ha : hasAudio [1] = true := by
    simp only [hasAudio, List.any_cons, List.any_nil, Bool.or_false,
      decide_eq_true_eq]
    norm_num
  have hr : resampleTo16kHZ [1] 16000 = [1] := by
    have ht : targetLen 1 16000 = 1 := by norm_num [targetLen, round_eq]
    simp [resampleTo16kHZ, ht, List.range_succ]
  rw [h]
  simp [ha, hr]

/-- The `WAIT` branch of `socket.onmessage`: state unchanged, one busy event
carrying the message text, capture-stop requested. -/
theorem processMessage_wait (uuid : String) (s : SessionState) (d : MsgData)
    (huid : d.uid = some uuid) (hw : d.status = some "WAIT") :
    processMessage uuid s (some d) =
      (s, [.busyEvent d.message, .toggleCaptureOff, .stopCapture]) := by
  simp only [processMessage]
  rw [if_neg (by simp [huid]), if_pos hw]

/-- The language-detection branch of `socket.onmessage`: when the resolved
language is unset and the message carries a truthy language (and the earlier
uid/`WAIT`/`SERVER_READY` branches do not fire), the language is set and only
a language-update event is emitted. -/
theorem processMessage_resolves (uuid : String) (s : SessionState)
    (d : MsgData) (hlang : s.language = none) (huid : d.uid = some uuid)
    (hst : d.status ≠ some "WAIT")
    (hsr : ¬(s.isServerReady = false ∧ d.message = some "SERVER_READY"))
    (l : String) (hl : d.language = some l) (hne : l ≠ "") :
    processMessage uuid s (some d) =
      ({ s with language := d.language },
        [.updateSelectedLanguage (d.language.getD "")]) := by
  simp only [processMessage]
  rw [if_neg (by simp [huid]), if_neg hst, if_neg hsr,
    if_pos ⟨hlang, by simp [truthyStr, hl, hne]⟩]

theorem processMessage_language_stable (uuid : String) (s : SessionState)
    (m : Option MsgData) (v : String) (h : s.language = some v) :
    (processMessage uuid s m).1.language = some v := by
  cases m with
  | none => simp [processMessage, h]
  | some d =>
    simp only [processMessage]
    split_ifs with h1 h2 h3 h4 h5
    · exact h
    · exact h
    · exact h
    · exact absurd h4.1 (by simp [h])
    · exact h
    · cases hg : d.segments <;> simp [hg, h]

theorem run_language_stable (uuid : String) (events : List Event) :
    ∀ (s : SessionState) (v : String), s.language = some v →
    (run uuid s events).1.language = some v := by
  induction events with
  | nil => intro s v h; simpa [run] using h
  | cons e es ih =>
    intro s v h
    have hstep : (step uuid s e).1.language = some v := by
      cases e with
      | msg m => exact processMessage_language_stable uuid s m v h
      | audio so rate block =>
        simp only [step, processAudio]
        split_ifs <;> exact h
    simpa [run] using ih (step uuid s e).1 v hstep

/-- Claim C5: the resolved language is written at most once.  First, once the
session's language is set to some value, processing any further event
sequence leaves that value untouched (later language fields are ignored).
Second, when the configured language is unset and a message reaches the
language-detection branch carrying detected language `l`, the resolved
language is `l` after that message and after every later event — so of two
detected-language messages only the first one's value is retained. -/
theorem claim_C5_theorem :
    (∀ (uuid : String) (s : SessionState) (events : List Event) (v : String),
      s.language = some v → (run uuid s events).1.language = some v) ∧
    (∀ (uuid : String) (s : SessionState) (d : MsgData) (events : List Event)
      (l : String), s.language = none → d.uid = some uuid →
      d.status ≠ some "WAIT" →
      ¬(s.isServerReady = false ∧ d.message = some "SERVER_READY") →
      d.language = some l → l ≠ "" →
      (run uuid s (.msg (some d) :: events)).1.language = some l) := by
  refine ⟨fun uuid s events v h => run_language_stable uuid events s v h,
    fun uuid s d events l hlang huid hst hsr hl hne => ?_⟩
  have h1 : (step uuid s (.msg (some d))).1.language = some l := by
    simp [step, processMessage_resolves uuid s d hlang huid hst hsr l hl hne,
      hl]
  simpa [run] using run_language_stable uuid events _ l h1

/-- Witness for claim C5: a session already resolved to `"en"` ignores a later
detected language `"fr"`; a session with unset language resolves to the first
detected language `"fr"` and ignores the later `"de"`. -/
theorem claim_C5_witness :
    (run "u" ⟨true, some "en"⟩
        [.msg (some { MsgData.empty with
          uid := some "u", language := some "fr" })]).1.language =
      some "en" ∧
    (run "u" ⟨true, none⟩
        [.msg (some { MsgData.empty with
            uid := some "u", language := some "fr" }),
         .msg (some { MsgData.empty with
            uid := some "u", language := some "de" })]).1.language =
      some "fr" := by
  constructor
  · exact claim_C5_theorem.1 "u" ⟨true, some "en"⟩ _ "en" rfl
  · exact claim_C5_theorem.2 "u" ⟨true, none⟩ _ _ "fr" rfl rfl
      (by simp [MsgData.empty]) (by simp) rfl (by simp)

/-- Claim C6 fails as stated: when `SERVER_READY` was processed before the
`WAIT` message, a loud audio block delivered after the `WAIT` still produces an
outbound frame — the `WAIT` branch emits the busy event and requests capture
stop but does not clear `isServerReady` or otherwise disable transmission.
The concrete trace SERVER_READY, WAIT("5"), loud block yields a frame after
the busy event. -/
theorem claim_C6_counterexample :
    (run "u" ⟨false, none⟩
      [.msg (some { MsgData.empty with
          uid := some "u", message := some "SERVER_READY" }),
       .msg (some { MsgData.empty with
          uid := some "u", status := some "WAIT", message := some "5" }),
       .audio true 16000 [1]]).2 =
    [.busyEvent (some "5"), .toggleCaptureOff, .stopCapture,
      .sendFrame [1]] := by
  have ha : hasAudio [1] = true := by
    simp only [hasAudio, List.any_cons, List.any_nil, Bool.or_false,
      decide_eq_true_eq]
    norm_num
  have hr : resampleTo16kHZ [1] 16000 = [1] := by
    have ht : targetLen 1 16000 = 1 := by norm_num [targetLen, round_eq]
    simp [resampleTo16kHZ, ht, List.range_succ]
  simp [run, step, processMessage, processAudio, MsgData.empty, ha, hr]

/-- Claim C6, amended: processing an inbound `WAIT` message (matching uid)
emits exactly one server-busy event carrying the message text together with a
capture-stop request, and leaves the session state unchanged; it does not by
itself disable transmission — no audio frame is ever transmitted afterwards
provided no `SERVER_READY` message is processed during the session. -/
theorem claim_C6_theorem (uuid : String) (s : SessionState) (d : MsgData)
    (events : List Event) (huid : d.uid = some uuid)
    (hw : d.status = some "WAIT") :
    processMessage uuid s (some d) =
      (s, [.busyEvent d.message, .toggleCaptureOff, .stopCapture]) ∧
    (s.isServerReady = false →
      (∀ e ∈ Event.msg (some d) :: events, triggersReady uuid e = false) →
      (run uuid s (.msg (some d) :: events)).2.all
        (fun o => !isFrame o) = true) := by
  exact ⟨processMessage_wait uuid s d huid hw,
    fun hs hall => (run_not_ready uuid _ s hs hall).2⟩

/-- Witness for the amended claim C6: a `WAIT` before readiness emits one busy
event and a stop request, and the whole trace (including a later loud audio
block) transmits no frame. -/
theorem claim_C6_witness :
    (processMessage "u" ⟨false, none⟩
        (some { MsgData.empty with
          uid := some "u", status := some "WAIT", message := some "3" }) =
      (⟨false, none⟩, [.busyEvent (some "3"), .toggleCaptureOff,
        .stopCapture])) ∧
    (run "u" ⟨false, none⟩
        [.msg (some { MsgData.empty with
            uid := some "u", status := some "WAIT", message := some "3" }),
         .audio true 16000 [1]]).2.all (fun o => !isFrame o) = true := by
  have h := claim_C6_theorem "u" ⟨false, none⟩
    { MsgData.empty with
      uid := some "u", status := some "WAIT", message := some "3" }
    [.audio true 16000 [1]] rfl rfl
  exact ⟨h.1, h.2 rfl (by intro e he; fin_cases he <;> rfl)⟩

/-- Claim C10: a message that reaches the language-detection branch (unset
resolved language, truthy detected language) and also carries transcript
segments resolves the language but discards the segments: the branch returns
early, so no transcript is forwarded to the renderer. -/
theorem claim_C10_theorem (uuid : String) (s : SessionState) (d : MsgData)
    (segs : List Segment) (hlang : s.language = none)
    (huid : d.uid = some uuid) (hst : d.status ≠ some "WAIT")
    (hsr : ¬(s.isServerReady = false ∧ d.message = some "SERVER_READY"))
    (l : String) (hl : d.language = some l) (hne : l ≠ "")
    (_hsegs : d.segments = some segs) :
    (processMessage uuid s (some d)).1.language = some l ∧
    (processMessage uuid s (some d)).2.all
      (fun o => !isTranscript o) = true := by
  rw [processMessage_resolves uuid s d hlang huid hst hsr l hl hne]
  simp [hl, isTranscript]

/-- Witness for claim C10: a message carrying both a detected language and a
nonempty segment list resolves the language and forwards nothing. -/
theorem claim_C10_witness :
    (processMessage "u" ⟨true, none⟩
        (some { MsgData.empty with
          uid := some "u", language := some "fr",
          segments := some [⟨some "hi"⟩] })).1.language = some "fr" ∧
    (processMessage "u" ⟨true, none⟩
        (some { MsgData.empty with
          uid := some "u", language := some "fr",
          segments := some [⟨some "hi"⟩] })).2.all
      (fun o => !isTranscript o) = true := by
  exact claim_C10_theorem "u" ⟨true, none⟩ _ [⟨some "hi"⟩] rfl rfl
    (by simp [MsgData.empty]) (by simp) "fr" rfl (by simp) rfl

/-- Claim C7: for every transcript text (and any measurement oracle), the
visible display window is exactly the last at-most-three computed
DisplayLines, so it never exceeds W = 3 lines, while the full recomputed
line list (over the whole text handed to the update) is retained in
`textSegments` untruncated. -/
theorem claim_C7_theorem (oh : List Char → ℚ) (lh : ℚ) (t : List Char) :
    (updateTranscription oh lh t).2.length ≤ 3 ∧
    (updateTranscription oh lh t).2 =
      (updateTranscription oh lh t).1.drop
        ((updateTranscription oh lh t).1.length - 3) ∧
    (updateTranscription oh lh t).1 = getLines oh lh (cleanText t) := by
  refine ⟨?_, rfl, rfl⟩
  simp only [updateTranscription, List.length_drop]
  omega

/-- In the zero-height oracle, the measured height never exceeds the line
height, so `getLines` never records a break. -/
theorem glStep_const_zero (st : GLState) (w : List Char) :
    glStep (fun _ => 0) 24 st w =
      { st with segment := st.segment ++ w ++ [' '] } := by
  have h : ¬((0 : ℚ) / 24 > (st.currentLines : ℚ)) := by
    rw [zero_div]
    exact not_lt.2 (Nat.cast_nonneg _)
  simp [glStep, h]

/-- With the zero-height oracle the `getLines` loop never breaks: it only
accumulates the words back into `segment`. -/
theorem foldl_const_zero (ws : List (List Char)) : ∀ st : GLState,
    ws.foldl (glStep (fun _ => 0) 24) st =
      { st with segment := st.segment ++ joinTS ws } := by
  induction ws with
  | nil => intro st; simp [joinTS]
  | cons w ws ih =>
    intro st
    rw [List.foldl_cons, glStep_const_zero, ih]
    simp [joinTS]

/-- `getLines` under the zero-height oracle: one single line, the whole
rebuilt text minus its final appended space. -/
theorem getLines_const_zero (t : List Char) :
    getLines (fun _ => 0) 24 t =
      [jsSubstring (joinTS (jsSplit ' ' t)) 0
        ((joinTS (jsSplit ' ' t)).length - 1)] := by
  simp [getLines, foldl_const_zero ]

/-- The `"transcript"` handler on a present, nonempty, non-whitespace batch:
the new state is computed from this batch's text alone. -/
theorem handleTranscript_eq (oh : List Char → ℚ) (lh : ℚ)
    (st : RendererState) (segs : List Segment) (d : MsgData)
    (hsegs : d.segments = some segs) (hlen : 0 < segs.length)
    (htrim : jsTrim (buildText segs) ≠ []) :
    handleTranscript oh lh st d =
      ⟨(updateTranscription oh lh (buildText segs)).1,
       (updateTranscription oh lh (buildText segs)).2⟩ := by
  simp [handleTranscript, hsegs, hlen, htrim]

/-- Claim C4 fails as stated: delivering the batch `[{text:"hello"}]` and then
the batch `[{text:"world"}]` leaves `textSegments` computed from `"world "`
alone — not from an accumulated transcript `"hello world "` — because the
`"transcript"` handler rebuilds the text from the current message's segments
only and persists no transcript string across updates.  (Measurement oracle:
constant height 0, line height 24, so the text is never split.) -/
theorem claim_C4_counterexample :
    (handleTranscript (fun _ => 0) 24
        (handleTranscript (fun _ => 0) 24 ⟨[], []⟩
          { MsgData.empty with segments := some [⟨some "hello"⟩] })
        { MsgData.empty with
          segments := some [⟨some "world"⟩] }).textSegments ≠
      getLines (fun _ => 0) 24 (cleanText "hello world ".data) := by
  rw [handleTranscript_eq (fun _ => 0) 24 _ [⟨some "world"⟩] _ rfl
      (by decide) (by decide)]
  show (updateTranscription (fun _ => 0) 24 (buildText [⟨some "world"⟩])).1 ≠ _
  simp only [updateTranscription, getLines_const_zero]
  decide

/-- Claim C4, amended: each `"transcript"` message with a nonempty batch whose
combined text is not whitespace-only rebuilds the renderer state from that
batch's text alone (each truthy segment text followed by one space); the
result is independent of any previously persisted renderer state — no
transcript text accumulates across updates. -/
theorem claim_C4_theorem (oh : List Char → ℚ) (lh : ℚ)
    (st st2 : RendererState) (segs : List Segment) (d : MsgData)
    (hsegs : d.segments = some segs) (hlen : 0 < segs.length)
    (htrim : jsTrim (buildText segs) ≠ []) :
    handleTranscript oh lh st d =
      ⟨(updateTranscription oh lh (buildText segs)).1,
       (updateTranscription oh lh (buildText segs)).2⟩ ∧
    handleTranscript oh lh st d = handleTranscript oh lh st2 d := by
  rw [handleTranscript_eq oh lh st segs d hsegs hlen htrim,
    handleTranscript_eq oh lh st2 segs d hsegs hlen htrim]
  exact ⟨rfl, rfl⟩

/-- Witness for the amended claim C4: the batch `[{text:"hi"}]` produces the
same renderer state from two different prior states. -/
theorem claim_C4_witness :
    handleTranscript (fun _ => 0) 24 ⟨[], []⟩
        { MsgData.empty with segments := some [⟨some "hi"⟩] } =
      ⟨(updateTranscription (fun _ => 0) 24 (buildText [⟨some "hi"⟩])).1,
       (updateTranscription (fun _ => 0) 24 (buildText [⟨some "hi"⟩])).2⟩ ∧
    handleTranscript (fun _ => 0) 24 ⟨[], []⟩
        { MsgData.empty with segments := some [⟨some "hi"⟩] } =
      handleTranscript (fun _ => 0) 24 ⟨[['x']], [['x']]⟩
        { MsgData.empty with segments := some [⟨some "hi"⟩] } := by
  exact claim_C4_theorem (fun _ => 0) 24 ⟨[], []⟩ ⟨[['x']], [['x']]⟩
    [⟨some "hi"⟩] _ rfl (by decide) (by decide)

/-! ### Reconstruction of the transcript from the DisplayLines (claim C3) -/

theorem jsSplit_ne_nil (sep : Char) (t : List Char) : jsSplit sep t ≠ [] := by
  cases t with
  | nil => simp [jsSplit]
  | cons c r =>
    simp only [jsSplit]
    split <;> simp

theorem joinSp_cons (w : List Char) (ws : List (List Char)) (h : ws ≠ []) :
    joinSp (w :: ws) = w ++ ' ' :: joinSp ws := by
  cases ws with
  | nil => exact absurd rfl h
  | cons x t => rfl

/-- Splitting on spaces and re-joining with single spaces is the identity. -/
theorem joinSp_jsSplit (t : List Char) : joinSp (jsSplit ' ' t) = t := by
  induction t with
  | nil => rfl
  | cons c r ih =>
    cases hsp : jsSplit ' ' r with
    | nil => exact absurd hsp (jsSplit_ne_nil ' ' r)
    | cons w ws =>
      rw [hsp] at ih
      simp only [jsSplit, hsp, List.headD_cons, List.tail_cons]
      by_cases hc : c = ' '
      · subst hc
        rw [if_pos rfl, joinSp_cons [] (w :: ws) (by simp)]
        simpa using ih
      · rw [if_neg hc]
        cases ws with
        | nil =>
          simp only [joinSp] at ih ⊢
          rw [ih]
        | cons x t2 =>
          rw [joinSp_cons (c :: w) (x :: t2) (by simp)]
          rw [joinSp_cons w (x :: t2) (by simp)] at ih
          rw [← ih]
          rfl

theorem joinSp_append (A B : List (List Char)) (hA : A ≠ []) (hB : B ≠ []) :
    joinSp (A ++ B) = joinSp A ++ ' ' :: joinSp B := by
  induction A with
  | nil => exact absurd rfl hA
  | cons a A ih =>
    cases A with
    | nil =>
      rw [List.singleton_append, joinSp_cons a B hB]
      simp [joinSp]
    | cons a2 A2 =>
      rw [List.cons_append, joinSp_cons a ((a2 :: A2) ++ B) (by simp),
        ih (by simp), joinSp_cons a (a2 :: A2) (by simp)]
      simp

theorem joinTS_append (A B : List (List Char)) :
    joinTS (A ++ B) = joinTS A ++ joinTS B := by
  simp [joinTS]

theorem joinTS_eq (ws : List (List Char)) (h : ws ≠ []) :
    joinTS ws = joinSp ws ++ [' '] := by
  induction ws with
  | nil => exact absurd rfl h
  | cons w t ih =>
    cases t with
    | nil => simp [joinTS, joinSp]
    | cons x t2 =>
      rw [joinSp_cons w (x :: t2) (by simp)]
      have hts : joinTS (w :: x :: t2) = (w ++ [' ']) ++ joinTS (x :: t2) := by
        simp [joinTS]
      rw [hts, ih (by simp)]
      simp

theorem jsSubstring_extract (A B : List Char) (n : ℕ) :
    jsSubstring (A ++ B) A.length (A.length + n) = B.take n := by
  unfold jsSubstring
  rw [max_eq_right (Nat.le_add_right _ _), min_eq_left (Nat.le_add_right _ _),
    List.take_append, List.drop_left]

/-- Extracting from the accumulated segment between the consumed prefix and
the final space of the pending words yields exactly the pending words joined
by single spaces (for any trailing context `C`). -/
theorem substring_pending (F P : List (List Char)) (hP : P ≠ [])
    (C : List Char) :
    jsSubstring (joinTS F ++ (joinTS P ++ C)) (joinTS F).length
      ((joinTS F).length + (joinSp P).length) = joinSp P := by
  rw [jsSubstring_extract, joinTS_eq P hP, List.append_assoc]
  exact List.take_left _ _

theorem glStep_inv (oh : List Char → ℚ) (lh : ℚ) (st : GLState)
    (G : List (List (List Char))) (P : List (List Char)) (w : List Char)
    (h : GLInv st G P) :
    ∃ G2 P2, GLInv (glStep oh lh st w) G2 P2 ∧
      G2.flatten ++ P2 = G.flatten ++ P ++ [w] := by
  have hseg2 : st.segment ++ w ++ [' '] =
      joinTS G.flatten ++ (joinTS P ++ (w ++ [' '])) := by
    rw [h.seg, joinTS_append]
    simp
  have hnp : (joinTS P).length = (joinSp P).length + 1 := by
    rw [joinTS_eq P h.pne]
    simp
  have hidx : (st.segment ++ w ++ [' ']).length - 1 - w.length - 1 =
      (joinTS G.flatten).length + (joinSp P).length := by
    rw [hseg2]
    simp only [List.length_append, List.length_cons, List.length_nil, hnp]
    omega
  have hline : jsSubstring (st.segment ++ w ++ [' ']) st.segmentLen
      ((st.segment ++ w ++ [' ']).length - 1 - w.length - 1) = joinSp P := by
    rw [hidx, h.slen, hseg2]
    exact substring_pending G.flatten P h.pne (w ++ [' '])
  simp only [glStep]
  split_ifs with hc
  · refine ⟨G ++ [P], [w], ⟨?_, by simp, ?_, ?_, ?_⟩, by simp⟩
    · intro g hg
      rcases List.mem_append.1 hg with hg | hg
      · exact h.gne g hg
      · rw [List.mem_singleton.1 hg]
        exact h.pne
    · rw [hline, h.segs]
      simp
    · rw [h.seg]
      simp [joinTS]
    · rw [hline, h.slen,
        show (G ++ [P]).flatten = G.flatten ++ P from by simp, joinTS_append]
      simp only [List.length_append, hnp]
      omega
  · refine ⟨G, P ++ [w], ⟨h.gne, by simp, h.segs, ?_, h.slen⟩, by simp⟩
    rw [h.seg]
    simp [joinTS]

theorem glFold_inv (oh : List Char → ℚ) (lh : ℚ) (ws : List (List Char)) :
    ∀ (st : GLState) (G : List (List (List Char))) (P : List (List Char)),
    GLInv st G P →
    ∃ G2 P2, GLInv (ws.foldl (glStep oh lh) st) G2 P2 ∧
      G2.flatten ++ P2 = G.flatten ++ P ++ ws := by
  induction ws with
  | nil => exact fun st G P h => ⟨G, P, h, by simp⟩
  | cons w ws ih =>
    intro st G P h
    obtain ⟨G1, P1, h1, e1⟩ := glStep_inv oh lh st G P w h
    obtain ⟨G2, P2, h2, e2⟩ := ih (glStep oh lh st w) G1 P1 h1
    refine ⟨G2, P2, by simpa using h2, ?_⟩
    rw [e2, e1]
    simp

/-- Joining the per-group joins with single spaces equals joining the
concatenation of the groups, provided no group is empty. -/
theorem joinSp_grouped (G : List (List (List Char))) (P : List (List Char))
    (hG : ∀ g ∈ G, g ≠ []) (hP : P ≠ []) :
    joinSp (G.map joinSp ++ [joinSp P]) = joinSp (G.flatten ++ P) := by
  induction G with
  | nil => simp [joinSp]
  | cons g G ih =>
    have hg := hG g (by simp)
    have hfp : G.flatten ++ P ≠ [] := by
      intro hcontra
      exact hP (List.append_eq_nil.1 hcontra).2
    rw [List.map_cons, List.cons_append,
      joinSp_cons (joinSp g) (G.map joinSp ++ [joinSp P]) (by simp),
      ih (fun x hx => hG x (by simp [hx])),
      show (g :: G).flatten = g ++ G.flatten by simp, List.append_assoc,
      joinSp_append g (G.flatten ++ P) hg hfp]

/-- Claim C3 fails as stated: under a measurement surface that wraps
`"a b"` after the first word, `getLines` produces the DisplayLines
`["a", "b"]`, and their plain concatenation is `"ab"` — the space at the line
boundary is dropped, so concatenating the DisplayLines does not reconstruct
the transcript text exactly. -/
theorem claim_C3_counterexample :
    getLines (fun s => if s.length ≤ 2 then (24 : ℚ) else 48) 24
        ['a', ' ', 'b'] = [['a'], ['b']] ∧
    (getLines (fun s => if s.length ≤ 2 then (24 : ℚ) else 48) 24
        ['a', ' ', 'b']).flatten ≠ ['a', ' ', 'b'] := by
  have hg : getLines (fun s => if s.length ≤ 2 then (24 : ℚ) else 48) 24
      ['a', ' ', 'b'] = [['a'], ['b']] := by
    have hsplit : jsSplit ' ' ['a', ' ', 'b'] = [['a'], ['b']] := by decide
    simp only [getLines, hsplit, List.foldl_cons, List.foldl_nil, glStep]
    norm_num [jsSubstring]
  refine ⟨hg, ?_⟩
  rw [hg]
  decide

/-- Claim C3, amended: each boundary space is moved out of the DisplayLines,
so it is re-joining the produced DisplayLines with a single space between
consecutive lines that reconstructs the transcript text exactly; this holds
for every measurement oracle and line height, provided the measurement does
not already report more than one line when the first word is appended (at a
break on the very first word the code emits a spurious empty line and skips
one character, see the counterexample's discussion). -/
theorem claim_C3_theorem (oh : List Char → ℚ) (lh : ℚ) (t : List Char)
    (hfirst : ¬(oh ((jsSplit ' ' t).headD [] ++ [' ']) / lh >
      ((1 : ℕ) : ℚ))) :
    joinSp (getLines oh lh t) = t := by
  obtain ⟨w0, rest, hw⟩ : ∃ w0 rest, jsSplit ' ' t = w0 :: rest := by
    cases hsp : jsSplit ' ' t with
    | nil => exact absurd hsp (jsSplit_ne_nil ' ' t)
    | cons w ws => exact ⟨w, ws, rfl⟩
  rw [hw, List.headD_cons] at hfirst
  have h0 : glStep oh lh ⟨[], 0, 1, []⟩ w0 = ⟨w0 ++ [' '], 0, 1, []⟩ := by
    simp only [glStep, List.nil_append]
    rw [if_neg (by simpa using hfirst)]
  have hinv : GLInv (⟨w0 ++ [' '], 0, 1, []⟩ : GLState) [] [w0] := by
    refine ⟨by simp, by simp, rfl, by simp [joinTS], by simp [joinTS]⟩
  obtain ⟨G, P, hI, hflat⟩ :=
    glFold_inv oh lh rest ⟨w0 ++ [' '], 0, 1, []⟩ [] [w0] hinv
  have hfold : (jsSplit ' ' t).foldl (glStep oh lh) ⟨[], 0, 1, []⟩ =
      rest.foldl (glStep oh lh) ⟨w0 ++ [' '], 0, 1, []⟩ := by
    rw [hw, List.foldl_cons, h0]
  have hnp : (joinTS P).length = (joinSp P).length + 1 := by
    rw [joinTS_eq P hI.pne]
    simp
  have hsub : jsSubstring
      (rest.foldl (glStep oh lh) ⟨w0 ++ [' '], 0, 1, []⟩).segment
      (rest.foldl (glStep oh lh) ⟨w0 ++ [' '], 0, 1, []⟩).segmentLen
      ((rest.foldl (glStep oh lh) ⟨w0 ++ [' '], 0, 1, []⟩).segment.length - 1)
      = joinSp P := by
    have hlen : (rest.foldl (glStep oh lh)
        ⟨w0 ++ [' '], 0, 1, []⟩).segment.length - 1 =
        (joinTS G.flatten).length + (joinSp P).length := by
      rw [hI.seg, joinTS_append]
      simp only [List.length_append, hnp]
      omega
    rw [hlen, hI.slen, hI.seg, joinTS_append]
    have h := substring_pending G.flatten P hI.pne []
    simpa using h
  have hlines : getLines oh lh t = G.map joinSp ++ [joinSp P] := by
    simp only [getLines, hfold]
    rw [hsub, hI.segs]
  rw [hlines, joinSp_grouped G P hI.gne hI.pne]
  have hfl : G.flatten ++ P = jsSplit ' ' t := by
    rw [hflat, hw]
    simp
  rw [hfl, joinSp_jsSplit]

/-- Witness for the amended claim C3: under the zero-height oracle the text
`"hi there"` is reconstructed exactly by joining the DisplayLines with
single spaces. -/
theorem claim_C3_witness :
    ¬((fun _ => (0 : ℚ))
        ((jsSplit ' ' "hi there".data).headD [] ++ [' ']) / 24 >
      ((1 : ℕ) : ℚ)) ∧
    joinSp (getLines (fun _ => 0) 24 "hi there".data) = "hi there".data :=
  ⟨by norm_num,
    claim_C3_theorem (fun _ => 0) 24 "hi there".data (by norm_num)⟩

end WhisperLive
